import Mathlib

/-!
Shallow embedding of the referral-tracking backend (`src/server/index.js`).

The server is an Express application over a MySQL table `referrals`.  We embed:

* the JSON request bodies as association lists of `JsValue`s (JavaScript
  destructuring of `req.body` reads named keys; a missing key is `undefined`);
* JavaScript truthiness (`!x`) and string coercion for the regex tests;
* the two regexes `/\S+@\S+\.\S+/` (unanchored: `RegExp.test` searches for a
  match anywhere in the string) and `/^\d{10}$/` (anchored);
* the table as a list of rows plus the `AUTO_INCREMENT` counter, with the DDL
  defaults `status = 'pending'`, `created_at`/`updated_at = CURRENT_TIMESTAMP`
  and the `ON UPDATE CURRENT_TIMESTAMP` clause; timestamps are an abstract
  `Nat` clock value passed to each mutating operation;
* the SQL statements of the four routes: `INSERT`, `SELECT ... ORDER BY
  created_at DESC` (with and without the `WHERE referrer_email = ?` filter,
  modelled as a stable sort by `created_at` descending), `UPDATE ... WHERE
  id = ?` (affected count = matched rows), and the grouped `COUNT`/`SUM`
  statistics query;
* the four request handlers, returning an HTTP response and the new table
  state.
-/

namespace Accredian

/-- A JSON value as seen by the handler after `express.json()` parsing and
destructuring.  Only the shapes the handlers distinguish are modelled:
a missing key (`undefined`), JSON `null`, and strings. -/
inductive JsValue where
  | undefined : JsValue
  | null : JsValue
  | str : String → JsValue
deriving DecidableEq

/-- JavaScript truthiness of a `JsValue` (`!x` in the source is `!(truthy x)`):
`undefined` and `null` are falsy, a string is truthy iff non-empty. -/
def truthy : JsValue → Bool
  | .undefined => false
  | .null => false
  | .str s => s ≠ ""

/-- JavaScript string coercion, applied by `RegExp.test` and by the SQL driver
to its placeholder arguments. -/
def jsToString : JsValue → String
  | .undefined => "undefined"
  | .null => "null"
  | .str s => s

/-- A request body: the JSON object `req.body` as an association list.
Reading a key not present yields `undefined`, as in JavaScript. -/
def getv (body : List (String × JsValue)) (k : String) : JsValue :=
  match body.find? (fun p => p.1 == k) with
  | some p => p.2
  | none => .undefined

/-- JavaScript regex whitespace (the class `\s`); `\S` is its complement. -/
def jsWhitespace (c : Char) : Bool :=
  ['\t', '\n', '\x0B', '\x0C', '\r', ' ', '\u00A0', '\u1680',
   '\u2000', '\u2001', '\u2002', '\u2003', '\u2004', '\u2005', '\u2006',
   '\u2007', '\u2008', '\u2009', '\u200A', '\u2028', '\u2029', '\u202F',
   '\u205F', '\u3000', '\uFEFF'].contains c

/-- The test `emailRegex.test` on a list of characters: the unanchored regex
`/\S+@\S+\.\S+/` matches iff the string contains, at some positions
`p < q`, an `'@'` at `p` and a `'.'` at `q` with a non-whitespace character
immediately before the `'@'`, only non-whitespace characters (at least one)
strictly between them, and a non-whitespace character immediately after the
`'.'`. -/
def emailTestL (l : List Char) : Bool :=
  let n := l.length
  (List.range n).any fun p =>
    (List.range n).any fun q =>
      decide (1 ≤ p) && decide (p + 2 ≤ q) && decide (q + 2 ≤ n) &&
      (l.getD p ' ' == '@') && (l.getD q ' ' == '.') &&
      !(jsWhitespace (l.getD (p - 1) ' ')) &&
      !(jsWhitespace (l.getD (q + 1) ' ')) &&
      ((List.range (q - p - 1)).all fun j => !(jsWhitespace (l.getD (p + 1 + j) ' ')))

/-- The test `emailRegex.test(s)` for `const emailRegex = /\S+@\S+\.\S+/`. -/
def emailTest (s : String) : Bool :=
  emailTestL s.toList

/-- The test `phoneRegex.test(s)` for `const phoneRegex = /^\d{10}$/`: anchored, so the
string is exactly ten decimal digits. -/
def phoneTest (s : String) : Bool :=
  decide (s.toList.length = 10) && s.toList.all (fun c => c.isDigit)

/-- A row of the `referrals` table (columns of `createTablesQuery`). -/
structure Referral where
  id : Nat
  referrer_name : String
  referrer_email : String
  referrer_phone : String
  referee_name : String
  referee_email : String
  referee_phone : String
  course : String
  status : String
  created_at : Nat
  updated_at : Nat
deriving DecidableEq

/-- The `referrals` table: its rows plus the `AUTO_INCREMENT` counter that
assigns the next `id`. -/
structure DB where
  rows : List Referral
  nextId : Nat
deriving DecidableEq

/-- The freshly created (empty) table; `AUTO_INCREMENT` starts at 1. -/
def initialDB : DB := ⟨[], 1⟩

/-- The `ENUM('pending', 'contacted', 'enrolled', 'completed')` values, which
are also the whitelist in the PATCH handler. -/
def statusList : List String := ["pending", "contacted", "enrolled", "completed"]

/-- Whether a stored status string is one of the four enum values. -/
def statusValidStr (s : String) : Bool := statusList.contains s

/-- The order `ORDER BY created_at DESC`: row `a` may come before row `b` iff
`b.created_at ≤ a.created_at`. -/
def byCreatedDesc (a b : Referral) : Prop := b.created_at ≤ a.created_at

instance : DecidableRel byCreatedDesc :=
  fun a b => inferInstanceAs (Decidable (b.created_at ≤ a.created_at))

instance : IsTotal Referral byCreatedDesc :=
  ⟨fun a b => Nat.le_total b.created_at a.created_at⟩

instance : IsTrans Referral byCreatedDesc :=
  ⟨fun _ _ _ hab hbc => Nat.le_trans hbc hab⟩

/-- The query `SELECT * FROM referrals ORDER BY created_at DESC`
(a stable sort of the rows by `created_at`, most recent first). -/
def listAll (db : DB) : List Referral :=
  db.rows.insertionSort byCreatedDesc

/-- The query `SELECT * FROM referrals WHERE referrer_email = ? ORDER BY created_at DESC`. -/
def listByReferrerEmail (db : DB) (email : String) : List Referral :=
  (db.rows.filter (fun r => r.referrer_email == email)).insertionSort byCreatedDesc

/-- The statement `INSERT INTO referrals (referrer_name, ..., course) VALUES (?, ..., ?)`:
appends a row with the DDL defaults `status = 'pending'`,
`created_at = updated_at = now`, and `id` from the `AUTO_INCREMENT` counter.
Returns the new table and `result.insertId`. -/
def insertReferral (db : DB) (now : Nat)
    (rn re rp en ee ep course : String) : DB × Nat :=
  (⟨db.rows ++ [⟨db.nextId, rn, re, rp, en, ee, ep, course, "pending", now, now⟩],
    db.nextId + 1⟩,
   db.nextId)

/-- The statement `UPDATE referrals SET status = ? WHERE id = ?`: sets `status` on every row
whose `id` matches (at most one, `id` being the primary key) and — by the DDL
clause `ON UPDATE CURRENT_TIMESTAMP` — refreshes `updated_at`.  Returns the
new table and `result.affectedRows`, the number of matched rows. -/
def updateStatus (db : DB) (now : Nat) (idv : Nat) (s : String) : DB × Nat :=
  (⟨db.rows.map (fun r =>
       if r.id = idv then { r with status := s, updated_at := now } else r),
    db.nextId⟩,
   db.rows.countP (fun r => r.id == idv))

/-- The five aggregates of the statistics query. -/
structure Stats where
  total_referrals : Nat
  pending_referrals : Nat
  contacted_referrals : Nat
  enrolled_referrals : Nat
  completed_referrals : Nat
deriving DecidableEq

/-- The query `SELECT COUNT(*) ..., SUM(CASE WHEN status = '...' THEN 1 ELSE 0 END) ...
FROM referrals`: the row count and the per-status counts, in one pass. -/
def aggregateStatistics (db : DB) : Stats :=
  ⟨db.rows.length,
   db.rows.countP (fun r => r.status == "pending"),
   db.rows.countP (fun r => r.status == "contacted"),
   db.rows.countP (fun r => r.status == "enrolled"),
   db.rows.countP (fun r => r.status == "completed")⟩

/-- The JSON bodies the handlers can send. -/
inductive RespBody where
  | error : String → RespBody
  | createdBody : Nat → String → RespBody
  | message : String → RespBody
  | rows : List Referral → RespBody
  | stats : Stats → RespBody
deriving DecidableEq

/-- An HTTP response: `res.status(code).json(body)`. -/
structure Resp where
  code : Nat
  body : RespBody
deriving DecidableEq

/-- The POST handler's first guard: `!referrerName || !referrerEmail || ... ||
!course` over the seven destructured fields. -/
def missingField (body : List (String × JsValue)) : Bool :=
  !(truthy (getv body "referrerName")) || !(truthy (getv body "referrerEmail")) ||
  !(truthy (getv body "referrerPhone")) || !(truthy (getv body "refereeName")) ||
  !(truthy (getv body "refereeEmail")) || !(truthy (getv body "refereePhone")) ||
  !(truthy (getv body "course"))

/-- The POST handler's second guard:
`!emailRegex.test(referrerEmail) || !emailRegex.test(refereeEmail)`. -/
def badEmail (body : List (String × JsValue)) : Bool :=
  !(emailTest (jsToString (getv body "referrerEmail"))) ||
  !(emailTest (jsToString (getv body "refereeEmail")))

/-- The POST handler's third guard:
`!phoneRegex.test(referrerPhone) || !phoneRegex.test(refereePhone)`. -/
def badPhone (body : List (String × JsValue)) : Bool :=
  !(phoneTest (jsToString (getv body "referrerPhone"))) ||
  !(phoneTest (jsToString (getv body "refereePhone")))

/-- The route `app.post("/api/referrals", ...)`: destructures the seven fields from
`req.body`, validates presence, then email format, then phone format (first
failure wins, each answered with a 400 and its message), and on success runs
the `INSERT` and answers 201 with the new id.  Returns the response and the
table state after the request. -/
def createReferral (db : DB) (now : Nat)
    (body : List (String × JsValue)) : Resp × DB :=
  if missingField body then
    (⟨400, .error "All fields are required"⟩, db)
  else if badEmail body then
    (⟨400, .error "Invalid email format"⟩, db)
  else if badPhone body then
    (⟨400, .error "Phone number must be 10 digits"⟩, db)
  else
    let result := insertReferral db now
      (jsToString (getv body "referrerName")) (jsToString (getv body "referrerEmail"))
      (jsToString (getv body "referrerPhone")) (jsToString (getv body "refereeName"))
      (jsToString (getv body "refereeEmail")) (jsToString (getv body "refereePhone"))
      (jsToString (getv body "course"))
    (⟨201, .createdBody result.2 "Referral created successfully"⟩, result.1)

/-- The check `["pending", "contacted", "enrolled", "completed"].includes(status)`:
strict equality, so only a string equal to one of the four literals counts. -/
def includesStatus : JsValue → Bool
  | .str s => statusList.contains s
  | _ => false

/-- The PATCH handler's guard: `!status || !([...].includes(status))`. -/
def invalidStatus (v : JsValue) : Bool :=
  !(truthy v) || !(includesStatus v)

/-- The route `app.patch("/api/referrals/:id", ...)`: validates the `status` body field
against the whitelist (400 otherwise), runs the `UPDATE`, answers 404 when no
row matched and 200 otherwise.  The numeric path parameter is `idv`. -/
def updateReferralStatus (db : DB) (now : Nat) (idv : Nat)
    (body : List (String × JsValue)) : Resp × DB :=
  let status := getv body "status"
  if invalidStatus status then
    (⟨400, .error "Valid status is required"⟩, db)
  else
    let result := updateStatus db now idv (jsToString status)
    if result.2 = 0 then
      (⟨404, .error "Referral not found"⟩, result.1)
    else
      (⟨200, .message "Referral status updated successfully"⟩, result.1)

/-- The route `app.get("/api/referrals", ...)`: answers 200 with all rows, most recent
first.  Read-only. -/
def getReferrals (db : DB) : Resp :=
  ⟨200, .rows (listAll db)⟩

/-- The route `app.get("/api/referrals/referrer/:email", ...)`: answers 200 with the
rows whose `referrer_email` equals the path parameter.  Read-only. -/
def getReferralsByReferrer (db : DB) (email : String) : Resp :=
  ⟨200, .rows (listByReferrerEmail db email)⟩

/-- The route `app.get("/api/statistics", ...)`: answers 200 with the aggregate.
Read-only. -/
def getStatistics (db : DB) : Resp :=
  ⟨200, .stats (aggregateStatistics db)⟩

/-- A mutating request: POST `/api/referrals` or PATCH `/api/referrals/:id`
(the GET routes do not change the table). -/
inductive Op where
  | create : Nat → List (String × JsValue) → Op
  | update : Nat → Nat → List (String × JsValue) → Op

/-- The table state after one request. -/
def applyOp (db : DB) : Op → DB
  | .create now body => (createReferral db now body).2
  | .update now idv body => (updateReferralStatus db now idv body).2

/-- The table state after a sequence of requests against a fresh table. -/
def runOps (ops : List Op) : DB :=
  ops.foldl applyOp initialDB

/-- The row the `INSERT` of a successful POST appends (the seven placeholder
values coerced to strings, plus the DDL defaults). -/
def insertedRow (db : DB) (now : Nat) (body : List (String × JsValue)) : Referral :=
  ⟨db.nextId,
   jsToString (getv body "referrerName"), jsToString (getv body "referrerEmail"),
   jsToString (getv body "referrerPhone"), jsToString (getv body "refereeName"),
   jsToString (getv body "refereeEmail"), jsToString (getv body "refereePhone"),
   jsToString (getv body "course"), "pending", now, now⟩

/-! ### Concrete sample data used by the witnesses -/

/-- A concrete stored row. -/
def sampleRow : Referral :=
  ⟨1, "Alice", "alice@example.com", "1234567890", "Bob", "bob@example.com",
   "0987654321", "Data Science", "pending", 3, 3⟩

/-- A concrete table holding `sampleRow`. -/
def sampleDB : DB := ⟨[sampleRow], 2⟩

/-- A concrete POST body that passes all three validations. -/
def sampleBody : List (String × JsValue) :=
  [("referrerName", .str "Alice"), ("referrerEmail", .str "alice@example.com"),
   ("referrerPhone", .str "1234567890"), ("refereeName", .str "Bob"),
   ("refereeEmail", .str "bob@example.com"), ("refereePhone", .str "0987654321"),
   ("course", .str "Data Science")]

/-! ### Helper lemmas about the `ORDER BY created_at DESC` sort -/

/-- Inserting a row that dominates (by `created_at`) every row of a list puts
it at the head. -/
lemma orderedInsert_head (x : Referral) (m : List Referral)
    (h : ∀ z ∈ m, byCreatedDesc x z) :
    m.orderedInsert byCreatedDesc x = x :: m := by
  cases m with
  | nil => rfl
  | cons w ws => simp [List.orderedInsert, h w (List.mem_cons_self w ws)]

/-- Filtering commutes with ordered insertion into a sorted list. -/
lemma filter_orderedInsert (p : Referral → Bool) (x : Referral) :
    ∀ l : List Referral, l.Sorted byCreatedDesc →
      (l.orderedInsert byCreatedDesc x).filter p =
        if p x then (l.filter p).orderedInsert byCreatedDesc x else l.filter p
  | [], _ => by
    by_cases hpx : p x <;> simp [List.orderedInsert, hpx]
  | y :: ys, hl => by
    have hys : ys.Sorted byCreatedDesc := hl.of_cons
    have hy : ∀ z ∈ ys, byCreatedDesc y z := List.rel_of_sorted_cons hl
    by_cases hxy : byCreatedDesc x y
    · by_cases hpx : p x
      · have hdom : ∀ z ∈ (y :: ys).filter p, byCreatedDesc x z := by
          intro z hz
          have hz' : z ∈ y :: ys := List.mem_of_mem_filter hz
          rcases List.mem_cons.mp hz' with rfl | hz''
          · exact hxy
          · exact Trans.trans hxy (hy z hz'')
        simp [List.orderedInsert, hxy, hpx, orderedInsert_head x _ hdom]
      · simp [List.orderedInsert, hxy, hpx]
    · have ih := filter_orderedInsert p x ys hys
      by_cases hpx : p x <;> by_cases hpy : p y <;>
        simp [List.orderedInsert, hxy, hpx, hpy, ih]

/-- Filtering commutes with the insertion sort by `created_at` descending. -/
lemma filter_insertionSort (p : Referral → Bool) :
    ∀ l : List Referral,
      (l.filter p).insertionSort byCreatedDesc =
        (l.insertionSort byCreatedDesc).filter p
  | [] => rfl
  | x :: xs => by
    have ih := filter_insertionSort p xs
    have hsorted := List.sorted_insertionSort byCreatedDesc xs
    by_cases hpx : p x <;>
      simp [List.insertionSort, hpx, ih, filter_orderedInsert p x _ hsorted]

/-! ### The claims -/

/-- C7: for every stored population and every email value `e`,
`listByReferrerEmail e` returns exactly the subsequence of `listAll`
consisting of the records whose `referrer_email` equals `e`, in the same
relative (`created_at` descending) order; an `e` matching no record yields
the empty sequence, not an error. -/
theorem listByReferrerEmail_filters_listAll (db : DB) (e : String) :
    listByReferrerEmail db e =
      (listAll db).filter (fun r => r.referrer_email == e) ∧
    ((∀ r ∈ db.rows, r.referrer_email ≠ e) → listByReferrerEmail db e = []) := by
  constructor
  · simpa [listByReferrerEmail, listAll] using
      filter_insertionSort (fun r => r.referrer_email == e) db.rows
  · intro h
    have hnil : db.rows.filter (fun r => r.referrer_email == e) = [] := by
      simp only [List.filter_eq_nil_iff]
      intro r hr
      simpa using h r hr
    simp [listByReferrerEmail, hnil]

/-- Witness for C7 at a concrete table and a concrete unmatched email. -/
theorem listByReferrerEmail_filters_listAll_witness :
    listByReferrerEmail sampleDB "nobody@example.com" = [] :=
  (listByReferrerEmail_filters_listAll sampleDB "nobody@example.com").2 (by decide)

/-- C1: for every create input whose seven fields are all present and
non-empty, whose two email fields pass the email-format check, and whose two
phone fields are exactly 10 decimal digits, `createReferral` appends exactly
one new record, with status `pending` and both timestamps set to the server
clock, responds 201 with the newly assigned id, and the record appears in
`listAll` of the resulting table with status `pending`. -/
theorem createReferral_valid_creates_pending (db : DB) (now : Nat)
    (body : List (String × JsValue))
    (hn1 : truthy (getv body "referrerName") = true)
    (hn2 : truthy (getv body "referrerEmail") = true)
    (hn3 : truthy (getv body "referrerPhone") = true)
    (hn4 : truthy (getv body "refereeName") = true)
    (hn5 : truthy (getv body "refereeEmail") = true)
    (hn6 : truthy (getv body "refereePhone") = true)
    (hn7 : truthy (getv body "course") = true)
    (he1 : emailTest (jsToString (getv body "referrerEmail")) = true)
    (he2 : emailTest (jsToString (getv body "refereeEmail")) = true)
    (hp1 : phoneTest (jsToString (getv body "referrerPhone")) = true)
    (hp2 : phoneTest (jsToString (getv body "refereePhone")) = true) :
    createReferral db now body =
      (⟨201, .createdBody db.nextId "Referral created successfully"⟩,
       ⟨db.rows ++ [insertedRow db now body], db.nextId + 1⟩) ∧
    (insertedRow db now body).status = "pending" ∧
    (insertedRow db now body).created_at = now ∧
    (insertedRow db now body).updated_at = now ∧
    (insertedRow db now body).id = db.nextId ∧
    insertedRow db now body ∈ listAll (createReferral db now body).2 := by
  have hm : missingField body = false := by
    simp [missingField, hn1, hn2, hn3, hn4, hn5, hn6, hn7]
  have hbe : badEmail body = false := by simp [badEmail, he1, he2]
  have hbp : badPhone body = false := by simp [badPhone, hp1, hp2]
  have heq : createReferral db now body =
      (⟨201, .createdBody db.nextId "Referral created successfully"⟩,
       ⟨db.rows ++ [insertedRow db now body], db.nextId + 1⟩) := by
    simp [createReferral, insertReferral, insertedRow, hm, hbe, hbp]
  refine ⟨heq, rfl, rfl, rfl, rfl, ?_⟩
  rw [heq]
  simp [listAll, List.mem_insertionSort]

/-- Witness for C1 at the empty table and a concrete valid body. -/
theorem createReferral_valid_creates_pending_witness :
    createReferral initialDB 5 sampleBody =
      (⟨201, .createdBody initialDB.nextId "Referral created successfully"⟩,
       ⟨initialDB.rows ++ [insertedRow initialDB 5 sampleBody],
        initialDB.nextId + 1⟩) :=
  (createReferral_valid_creates_pending initialDB 5 sampleBody
    (by decide) (by decide) (by decide) (by decide) (by decide) (by decide)
    (by decide) (by decide) (by decide) (by decide) (by decide)).1

/-- C2: the POST validations run in the order presence, then email format,
then phone format; the first failing check determines the 400 response and
its exact message, and on any validation failure the table is unchanged (the
store is never reached). -/
theorem createReferral_validation_order (db : DB) (now : Nat)
    (body : List (String × JsValue)) :
    (missingField body = true →
      createReferral db now body = (⟨400, .error "All fields are required"⟩, db)) ∧
    (missingField body = false → badEmail body = true →
      createReferral db now body = (⟨400, .error "Invalid email format"⟩, db)) ∧
    (missingField body = false → badEmail body = false → badPhone body = true →
      createReferral db now body =
        (⟨400, .error "Phone number must be 10 digits"⟩, db)) :=
  ⟨fun h1 => by simp [createReferral, h1],
   fun h1 h2 => by simp [createReferral, h1, h2],
   fun h1 h2 h3 => by simp [createReferral, h1, h2, h3]⟩

/-- Witness for C2: the empty body is missing every field and is rejected
with the table unchanged. -/
theorem createReferral_validation_order_witness :
    createReferral initialDB 0 [] =
      (⟨400, .error "All fields are required"⟩, initialDB) :=
  (createReferral_validation_order initialDB 0 []).1 (by decide)

/-- C3: with the presence check out of the way, a referrer or referee email
failing the (unanchored) `/\S+@\S+\.\S+/` test makes the POST fail with
exactly "Invalid email format"; and whenever both emails pass the test, the
request is never answered with that error, whatever the other validations
do. -/
theorem createReferral_email_check (db : DB) (now : Nat)
    (body : List (String × JsValue)) :
    (missingField body = false →
      (emailTest (jsToString (getv body "referrerEmail")) = false ∨
       emailTest (jsToString (getv body "refereeEmail")) = false) →
      createReferral db now body = (⟨400, .error "Invalid email format"⟩, db)) ∧
    (emailTest (jsToString (getv body "referrerEmail")) = true →
     emailTest (jsToString (getv body "refereeEmail")) = true →
      (createReferral db now body).1.body ≠ .error "Invalid email format") := by
  constructor
  · intro h1 h2
    have hbe : badEmail body = true := by
      rcases h2 with h2 | h2 <;> simp [badEmail, h2]
    simp [createReferral, h1, hbe]
  · intro he1 he2
    have hbe : badEmail body = false := by simp [badEmail, he1, he2]
    rcases hm : missingField body <;> rcases hp : badPhone body <;>
      simp [createReferral, hm, hbe, hp]

/-- Witness for C3: a malformed referee email is rejected with exactly the
email-format message. -/
theorem createReferral_email_check_witness :
    createReferral initialDB 0
      [("referrerName", .str "Alice"), ("referrerEmail", .str "alice@example.com"),
       ("referrerPhone", .str "1234567890"), ("refereeName", .str "Bob"),
       ("refereeEmail", .str "not-an-email"), ("refereePhone", .str "0987654321"),
       ("course", .str "Data Science")] =
      (⟨400, .error "Invalid email format"⟩, initialDB) :=
  (createReferral_email_check initialDB 0 _).1 (by decide) (Or.inr (by decide))

/-- C10: the POST handler destructures only the seven documented fields from
the body, so two bodies agreeing on those seven keys behave identically
(response and resulting table) — any extra client-supplied fields such as
`status`, `id` or `created_at` are ignored — and an accepted create always
stores status `pending` and the system-assigned id. -/
theorem createReferral_ignores_extra_fields (db : DB) (now : Nat)
    (b1 b2 : List (String × JsValue))
    (h : ∀ k ∈ ["referrerName", "referrerEmail", "referrerPhone", "refereeName",
                "refereeEmail", "refereePhone", "course"], getv b1 k = getv b2 k) :
    createReferral db now b1 = createReferral db now b2 ∧
    ((createReferral db now b1).1.code = 201 →
      (createReferral db now b1).2.rows = db.rows ++ [insertedRow db now b1] ∧
      (insertedRow db now b1).status = "pending" ∧
      (insertedRow db now b1).id = db.nextId) := by
  have e1 := h "referrerName" (by simp)
  have e2 := h "referrerEmail" (by simp)
  have e3 := h "referrerPhone" (by simp)
  have e4 := h "refereeName" (by simp)
  have e5 := h "refereeEmail" (by simp)
  have e6 := h "refereePhone" (by simp)
  have e7 := h "course" (by simp)
  constructor
  · simp only [createReferral, insertReferral, missingField, badEmail, badPhone,
      e1, e2, e3, e4, e5, e6, e7]
  · intro hc
    rcases hm : missingField b1 <;> rcases he : badEmail b1 <;>
        rcases hp : badPhone b1 <;>
      simp [createReferral, insertReferral, insertedRow, hm, he, hp] at hc ⊢

/-- Witness for C10: a body carrying extra `status`, `id` and `created_at`
fields behaves exactly like the same body without them. -/
theorem createReferral_ignores_extra_fields_witness :
    createReferral initialDB 5
      (sampleBody ++ [("status", .str "completed"), ("id", .str "999"),
                      ("created_at", .str "1999-01-01")]) =
      createReferral initialDB 5 sampleBody :=
  (createReferral_ignores_extra_fields initialDB 5 _ sampleBody (by decide)).1

/-- C4: a PATCH whose `status` body field is missing or is not one of the four
exact literals is answered 400 with exactly "Valid status is required" and
leaves the table — in particular every stored status — unchanged. -/
theorem updateReferralStatus_rejects_bad_status (db : DB) (now idv : Nat)
    (body : List (String × JsValue))
    (h : ∀ s : String, getv body "status" = JsValue.str s →
          statusList.contains s = false) :
    updateReferralStatus db now idv body =
      (⟨400, .error "Valid status is required"⟩, db) := by
  have hinv : invalidStatus (getv body "status") = true := by
    rcases hv : getv body "status" with _ | _ | s
    · simp [invalidStatus, truthy]
    · simp [invalidStatus, truthy]
    · simp only [invalidStatus, includesStatus, h s hv]
      simp
  simp [updateReferralStatus, hinv]

/-- Witness for C4: the out-of-whitelist value "cancelled" is rejected and the
concrete table is unchanged. -/
theorem updateReferralStatus_rejects_bad_status_witness :
    updateReferralStatus sampleDB 7 1 [("status", .str "cancelled")] =
      (⟨400, .error "Valid status is required"⟩, sampleDB) :=
  updateReferralStatus_rejects_bad_status sampleDB 7 1 _
    (fun s hs => by cases hs; decide)

/-- A list whose mapped ids are distinct holds at most one row with any given
id. -/
lemma countP_id_le_one : ∀ (l : List Referral) (idv : Nat),
    (l.map Referral.id).Nodup → l.countP (fun r => r.id == idv) ≤ 1
  | [], _, _ => by simp
  | r :: t, idv, h => by
    have hnotin : r.id ∉ t.map Referral.id := (List.nodup_cons.mp h).1
    have ht : (t.map Referral.id).Nodup := (List.nodup_cons.mp h).2
    by_cases hr : r.id = idv
    · have hzero : t.countP (fun x => x.id == idv) = 0 := by
        rw [List.countP_eq_zero]
        intro x hx
        simp only [beq_iff_eq]
        intro hxid
        exact hnotin (hr ▸ hxid ▸ List.mem_map_of_mem Referral.id hx)
      simp [List.countP_cons, hr, hzero]
    · have := countP_id_le_one t idv ht
      simp [List.countP_cons, hr]
      omega

/-- The four whitelist literals are truthy non-empty strings. -/
lemma truthy_of_contains (s : String) (h : statusList.contains s = true) :
    truthy (JsValue.str s) = true := by
  have hne : s ≠ "" := by
    intro he
    subst he
    exact absurd h (by decide)
  simp [truthy, hne]

/-- C5: for a PATCH carrying a valid status, the `UPDATE` reports an affected
count of 0 exactly when no row has the given id (answered 404 with
`{error: "Referral not found"}` and the table unchanged), and — ids being
unique — a count of 1 exactly when some row has the id, in which case the
handler answers 200 with the success message. -/
theorem updateReferralStatus_affected_count (db : DB) (now idv : Nat)
    (body : List (String × JsValue)) (s : String)
    (hs : getv body "status" = JsValue.str s)
    (hv : statusList.contains s = true)
    (hnd : (db.rows.map Referral.id).Nodup) :
    (db.rows.countP (fun r => r.id == idv) = 0 ↔ ∀ r ∈ db.rows, r.id ≠ idv) ∧
    (db.rows.countP (fun r => r.id == idv) = 0 →
      updateReferralStatus db now idv body =
        (⟨404, .error "Referral not found"⟩, db)) ∧
    (db.rows.countP (fun r => r.id == idv) = 1 ↔ ∃ r ∈ db.rows, r.id = idv) ∧
    ((∃ r ∈ db.rows, r.id = idv) →
      (updateReferralStatus db now idv body).1 =
        ⟨200, .message "Referral status updated successfully"⟩) := by
  have hinv : invalidStatus (getv body "status") = false := by
    simp only [invalidStatus, hs, truthy_of_contains s hv, includesStatus, hv]
    simp
  have hzero_iff : db.rows.countP (fun r => r.id == idv) = 0 ↔
      ∀ r ∈ db.rows, r.id ≠ idv := by
    rw [List.countP_eq_zero]
    constructor
    · intro h r hr
      simpa using h r hr
    · intro h r hr
      simpa using h r hr
  refine ⟨hzero_iff, ?_, ?_, ?_⟩
  · intro hzero
    have hid : ∀ r ∈ db.rows, r.id ≠ idv := hzero_iff.mp hzero
    have hmap : db.rows.map (fun r =>
        if r.id = idv then { r with status := jsToString (getv body "status"),
                                    updated_at := now } else r) = db.rows := by
      have h2 : db.rows.map (fun r =>
          if r.id = idv then { r with status := jsToString (getv body "status"),
                                      updated_at := now } else r) =
          db.rows.map id :=
        List.map_congr_left (fun r hr => by simp [hid r hr])
      simpa using h2
    simp [updateReferralStatus, hinv, updateStatus, hzero, hmap]
  · constructor
    · intro hone
      have hpos : 0 < db.rows.countP (fun r => r.id == idv) := by omega
      obtain ⟨r, hr, hrid⟩ := List.countP_pos_iff.mp hpos
      exact ⟨r, hr, by simpa using hrid⟩
    · intro ⟨r, hr, hrid⟩
      have hpos : 0 < db.rows.countP (fun r => r.id == idv) :=
        List.countP_pos_iff.mpr ⟨r, hr, by simpa using hrid⟩
      have hle := countP_id_le_one db.rows idv hnd
      omega
  · intro ⟨r, hr, hrid⟩
    have hpos : 0 < db.rows.countP (fun r => r.id == idv) :=
      List.countP_pos_iff.mpr ⟨r, hr, by simpa using hrid⟩
    have hne : db.rows.countP (fun r => r.id == idv) ≠ 0 := by omega
    simp [updateReferralStatus, hinv, updateStatus, hne]

/-- Witness for C5: PATCHing a non-existent id on a concrete table answers 404
with the not-found body and changes nothing. -/
theorem updateReferralStatus_affected_count_witness :
    updateReferralStatus sampleDB 7 999999 [("status", .str "enrolled")] =
      (⟨404, .error "Referral not found"⟩, sampleDB) :=
  (updateReferralStatus_affected_count sampleDB 7 999999
    [("status", .str "enrolled")] "enrolled" rfl (by decide) (by decide)).2.1
    (by decide)

/-- Statuses of a row list whose members all carry a whitelisted status sum,
status by status, to the length of the list. -/
lemma countP_status_sum : ∀ l : List Referral,
    (∀ r ∈ l, statusValidStr r.status = true) →
    l.countP (fun r => r.status == "pending") +
      l.countP (fun r => r.status == "contacted") +
      l.countP (fun r => r.status == "enrolled") +
      l.countP (fun r => r.status == "completed") = l.length
  | [], _ => rfl
  | r :: t, h => by
    have ht := countP_status_sum t (fun x hx => h x (List.mem_cons_of_mem r hx))
    have hcases : r.status = "pending" ∨ r.status = "contacted" ∨
        r.status = "enrolled" ∨ r.status = "completed" := by
      have hr := h r (List.mem_cons_self r t)
      have : r.status ∈ statusList := by simpa [statusValidStr] using hr
      simpa [statusList] using this
    rcases hcases with h1 | h1 | h1 | h1 <;>
      simp [List.countP_cons, h1] <;> omega

/-- C6: for any population of referrals (any table state whose statuses are in
the enum, as the schema guarantees — the empty one included), the statistics
aggregate satisfies `pending + contacted + enrolled + completed = total`; all
five counts are naturals, hence non-negative. -/
theorem aggregateStatistics_invariant (db : DB)
    (h : ∀ r ∈ db.rows, statusValidStr r.status = true) :
    (aggregateStatistics db).pending_referrals +
      (aggregateStatistics db).contacted_referrals +
      (aggregateStatistics db).enrolled_referrals +
      (aggregateStatistics db).completed_referrals =
      (aggregateStatistics db).total_referrals := by
  simpa [aggregateStatistics] using countP_status_sum db.rows h

/-- Witness for C6 on a concrete one-row table. -/
theorem aggregateStatistics_invariant_witness :
    (aggregateStatistics sampleDB).pending_referrals +
      (aggregateStatistics sampleDB).contacted_referrals +
      (aggregateStatistics sampleDB).enrolled_referrals +
      (aggregateStatistics sampleDB).completed_referrals =
      (aggregateStatistics sampleDB).total_referrals :=
  aggregateStatistics_invariant sampleDB (by decide)

/-- A status value accepted by the PATCH whitelist coerces to a whitelisted
status string. -/
lemma statusValidStr_jsToString (v : JsValue) (h : invalidStatus v = false) :
    statusValidStr (jsToString v) = true := by
  cases v with
  | undefined => exact absurd h (by decide)
  | null => exact absurd h (by decide)
  | str s =>
    simp only [invalidStatus, includesStatus, truthy,
      Bool.or_eq_false_iff, Bool.not_eq_eq_eq_not, Bool.not_false] at h
    simpa [statusValidStr, jsToString] using h.2

/-- Each mutating request preserves "every stored status is whitelisted". -/
lemma applyOp_preserves_valid (db : DB) (op : Op)
    (h : db.rows.all (fun r => statusValidStr r.status) = true) :
    (applyOp db op).rows.all (fun r => statusValidStr r.status) = true := by
  cases op with
  | create now body =>
    by_cases hm : missingField body
    · simpa [applyOp, createReferral, hm] using h
    · by_cases he : badEmail body
      · simpa [applyOp, createReferral, hm, he] using h
      · by_cases hp : badPhone body
        · simpa [applyOp, createReferral, hm, he, hp] using h
        · rw [List.all_eq_true] at h ⊢
          intro r hr
          simp only [applyOp, createReferral, hm, he, hp, insertReferral,
            Bool.false_eq_true, if_false, List.mem_append, List.mem_singleton] at hr
          rcases hr with hr | rfl
          · exact h r hr
          · rfl
  | update now idv body =>
    by_cases hv : invalidStatus (getv body "status")
    · simpa [applyOp, updateReferralStatus, hv] using h
    · have hv' : invalidStatus (getv body "status") = false := by
        simpa using hv
      have hsv := statusValidStr_jsToString _ hv'
      have hrows : (applyOp db (Op.update now idv body)).rows =
          db.rows.map (fun r =>
            if r.id = idv then
              { r with status := jsToString (getv body "status"),
                       updated_at := now } else r) := by
        by_cases hz : db.rows.countP (fun r => r.id == idv) = 0 <;>
          simp [applyOp, updateReferralStatus, hv', updateStatus, hz]
      rw [List.all_eq_true] at h ⊢
      intro x hx
      rw [hrows] at hx
      obtain ⟨r, hr, rfl⟩ := List.mem_map.mp hx
      by_cases hid : r.id = idv
      · simpa [hid] using hsv
      · simpa [hid] using h r hr

/-- The whitelist invariant carries through any fold of mutating requests. -/
lemma runOps_preserves : ∀ (ops : List Op) (db : DB),
    db.rows.all (fun r => statusValidStr r.status) = true →
    (ops.foldl applyOp db).rows.all (fun r => statusValidStr r.status) = true
  | [], _, h => h
  | op :: ops, db, h => runOps_preserves ops _ (applyOp_preserves_valid db op h)

/-- C8: in every table state reachable from the fresh table by any sequence of
create and update-status requests, every persisted referral status is one of
`pending`, `contacted`, `enrolled`, `completed`. -/
theorem runOps_status_whitelist (ops : List Op) :
    (runOps ops).rows.all (fun r => statusValidStr r.status) = true :=
  runOps_preserves ops initialDB rfl

/-- C9: a successful status update answers 200, keeps the id counter, and
rewrites the table by setting `status` and refreshing `updated_at` on exactly
the row matching the id: the ids, the seven client-supplied columns and
`created_at` of every row are unchanged, and the statuses and `updated_at`
change only at the matching row. -/
theorem updateReferralStatus_frame (db : DB) (now idv : Nat)
    (body : List (String × JsValue)) (s : String)
    (hs : getv body "status" = JsValue.str s)
    (hv : statusList.contains s = true)
    (hex : db.rows.countP (fun r => r.id == idv) ≠ 0) :
    (updateReferralStatus db now idv body).1 =
      ⟨200, .message "Referral status updated successfully"⟩ ∧
    (updateReferralStatus db now idv body).2.nextId = db.nextId ∧
    (updateReferralStatus db now idv body).2.rows =
      db.rows.map (fun r =>
        if r.id = idv then { r with status := s, updated_at := now } else r) ∧
    (updateReferralStatus db now idv body).2.rows.map Referral.id =
      db.rows.map Referral.id ∧
    (updateReferralStatus db now idv body).2.rows.map Referral.referrer_name =
      db.rows.map Referral.referrer_name ∧
    (updateReferralStatus db now idv body).2.rows.map Referral.referrer_email =
      db.rows.map Referral.referrer_email ∧
    (updateReferralStatus db now idv body).2.rows.map Referral.referrer_phone =
      db.rows.map Referral.referrer_phone ∧
    (updateReferralStatus db now idv body).2.rows.map Referral.referee_name =
      db.rows.map Referral.referee_name ∧
    (updateReferralStatus db now idv body).2.rows.map Referral.referee_email =
      db.rows.map Referral.referee_email ∧
    (updateReferralStatus db now idv body).2.rows.map Referral.referee_phone =
      db.rows.map Referral.referee_phone ∧
    (updateReferralStatus db now idv body).2.rows.map Referral.course =
      db.rows.map Referral.course ∧
    (updateReferralStatus db now idv body).2.rows.map Referral.created_at =
      db.rows.map Referral.created_at ∧
    (updateReferralStatus db now idv body).2.rows.map Referral.status =
      db.rows.map (fun r => if r.id = idv then s else r.status) ∧
    (updateReferralStatus db now idv body).2.rows.map Referral.updated_at =
      db.rows.map (fun r => if r.id = idv then now else r.updated_at) := by
  have hinv : invalidStatus (getv body "status") = false := by
    simp only [invalidStatus, hs, truthy_of_contains s hv, includesStatus, hv]
    simp
  have hjs : jsToString (getv body "status") = s := by rw [hs]; rfl
  have hresp : (updateReferralStatus db now idv body).1 =
      ⟨200, .message "Referral status updated successfully"⟩ := by
    simp [updateReferralStatus, hinv, updateStatus, hex]
  have hnext : (updateReferralStatus db now idv body).2.nextId = db.nextId := by
    simp [updateReferralStatus, hinv, updateStatus, hex]
  have hrows : (updateReferralStatus db now idv body).2.rows =
      db.rows.map (fun r =>
        if r.id = idv then { r with status := s, updated_at := now } else r) := by
    simp [updateReferralStatus, hinv, updateStatus, hex, hjs]
  refine ⟨hresp, hnext, hrows, ?_, ?_, ?_, ?_, ?_, ?_, ?_, ?_, ?_, ?_, ?_⟩ <;>
    · rw [hrows, List.map_map]
      exact List.map_congr_left
        (fun r hr => by by_cases hid : r.id = idv <;> simp [hid])

/-- Witness for C9: updating the one stored row to `enrolled` succeeds. -/
theorem updateReferralStatus_frame_witness :
    (updateReferralStatus sampleDB 7 1 [("status", JsValue.str "enrolled")]).1 =
      ⟨200, .message "Referral status updated successfully"⟩ :=
  (updateReferralStatus_frame sampleDB 7 1 [("status", JsValue.str "enrolled")]
    "enrolled" rfl (by decide) (by decide)).1

end Accredian
